import Mathlib

/-!
Verification development for the kemenhub-cc news aggregation pipeline.

The TypeScript source is embedded shallowly:

* `lib/quoteEngine.ts` (quotation heuristics): `cleanSpaces`, `stripHtmlSimple`,
  `splitSentences`, `clampLen`, `scoreSentence`, `extractQuotedFragments`,
  `extractAttributedFragments`, `generateQuoteFromArticle`.
* `app/api/items/route.ts` variants (feed aggregation): `matchKeywords`,
  `loadNewsFromFeeds` — the variant with the `seen`-set and `allowFallback`
  flag lives in namespace `RouteV3`; the earlier variant with the
  unconditional keyword fallback lives in namespace `RouteV2`.

Strings are modelled as `List Char` / `String`; JavaScript string indices,
`.length`, `.slice` and regex quantifier counts operate on UTF-16 code units,
which coincide with code points for the BMP text this program processes, so
they are modelled by `List.length`, `List.take`, etc. on `List Char`.
JavaScript `Date` parsing and `toISOString` belong to the excluded runtime:
a successfully parsed timestamp is modelled as an `Int` (epoch milliseconds),
and the permissive parser `new Date(string)` + `isValidDate` is passed as a
function parameter `parse : String → Option Int`.
-/

/-- The JavaScript `\s` character class (also the set removed by
`String.prototype.trim` / `trimEnd`): space, tab, LF, VT, FF, CR, NBSP,
Ogham space mark, U+2000..U+200A, LS, PS, NNBSP, MMSP, ideographic space,
and the BOM. -/
def isJsWs (c : Char) : Bool :=
  let n := c.val.toNat
  n = 0x20 || n = 0x09 || n = 0x0A || n = 0x0B || n = 0x0C || n = 0x0D ||
  n = 0xA0 || n = 0x1680 || (0x2000 ≤ n && n ≤ 0x200A) ||
  n = 0x2028 || n = 0x2029 || n = 0x202F || n = 0x205F ||
  n = 0x3000 || n = 0xFEFF

/-- Every whitespace character becomes a plain space. -/
def wsToSpace (c : Char) : Char := if isJsWs c then ' ' else c

/-- Collapse adjacent-space runs to a single space. -/
def squashSpaces : List Char → List Char
  | [] => []
  | [c] => [c]
  | a :: b :: r =>
    if a = ' ' && b = ' ' then squashSpaces (b :: r)
    else a :: squashSpaces (b :: r)

/-- One global-replace pass of `replace(/\s+/g, " ")`: each maximal
whitespace run becomes a single space.  Mapping every whitespace character
to a space and then merging adjacent spaces yields exactly that. -/
def collapseWs (l : List Char) : List Char := squashSpaces (l.map wsToSpace)

/-- Leading-whitespace trim, the front half of `String.prototype.trim`. -/
def trimLeadWs (l : List Char) : List Char := l.dropWhile isJsWs

/-- Trailing-whitespace trim (`String.prototype.trimEnd`). -/
def trimTrailWs (l : List Char) : List Char := (l.reverse.dropWhile isJsWs).reverse

/-- JavaScript `s.trim()`. -/
def jsTrim (l : List Char) : List Char := trimTrailWs (trimLeadWs l)

/-- Function `cleanSpaces` from `lib/quoteEngine.ts`:
`s.replace(/\s+/g, " ").trim()`. -/
def cleanSpaces (s : String) : String :=
  String.mk (jsTrim (collapseWs s.toList))

/-- JavaScript `String.prototype.toLowerCase`, restricted to the
character-by-character (BMP, locale-independent) mapping the pipeline's
ASCII keyword lists rely on. -/
def lowerStr (s : String) : String := String.mk (s.toList.map Char.toLower)

/-- Case-insensitive character comparison used by the `i`-flagged regexes. -/
def ciEq (a b : Char) : Bool := a.toLower = b.toLower

/-- Does `l` start with `p`, comparing case-insensitively? -/
def ciLeads : List Char → List Char → Bool
  | [], _ => true
  | _ :: _, [] => false
  | p :: ps, c :: cs => ciEq p c && ciLeads ps cs

/-- Split `l` at the first case-insensitive occurrence of `pat`, returning the
suffix after that occurrence, or `none` when `pat` does not occur in `l`. -/
def dropThroughCi (pat : List Char) : List Char → Option (List Char)
  | [] => if pat.isEmpty then some [] else none
  | c :: r =>
    if ciLeads pat (c :: r) then some ((c :: r).drop pat.length)
    else dropThroughCi pat r

/-- One global-replace pass of `/<X[\s\S]*?<\/X>/gi` deleting every match,
with opening literal `op` and closing literal `cl`: at each position where
the opening literal matches (case-insensitively) and the closing literal
occurs later, the whole lazy (hence shortest) span is removed and scanning
resumes after it; otherwise the character is kept.  `fuel` only bounds the
recursion depth (every recursive call strictly shortens the list, so any
`fuel ≥ l.length` gives the fixpoint); it keeps the definition structurally
recursive so that concrete inputs evaluate inside the kernel. -/
def removeBlocksF (op cl : List Char) : Nat → List Char → List Char
  | 0, l => l
  | _ + 1, [] => []
  | fuel + 1, c :: r =>
    if ciLeads op (c :: r) then
      match dropThroughCi cl ((c :: r).drop op.length) with
      | some rest => removeBlocksF op cl fuel rest
      | none => c :: removeBlocksF op cl fuel r
    else c :: removeBlocksF op cl fuel r

/-- Wrapper running `removeBlocksF` with enough fuel. -/
def removeBlocks (op cl : List Char) (l : List Char) : List Char :=
  removeBlocksF op cl l.length l

/-- One global-replace pass of `/<[^>]+>/g` with `" "`: a `<` followed by at
least one non-`>` character and then `>` is replaced by a single space
(`dropThroughCi` consuming at least two characters of `r` means at least one
character stood before the `>`).  Fueled like `removeBlocksF`. -/
def stripTagSpansF : Nat → List Char → List Char
  | 0, l => l
  | _ + 1, [] => []
  | fuel + 1, c :: r =>
    if c = '<' then
      match dropThroughCi ['>'] r with
      | some rest =>
        if r.length - rest.length ≥ 2 then ' ' :: stripTagSpansF fuel rest
        else c :: stripTagSpansF fuel r
      | none => c :: stripTagSpansF fuel r
    else c :: stripTagSpansF fuel r

/-- Wrapper running `stripTagSpansF` with enough fuel. -/
def stripTagSpans (l : List Char) : List Char := stripTagSpansF l.length l

/-- Function `stripHtmlSimple` from `lib/quoteEngine.ts`: remove `<script>…</script>`
and `<style>…</style>` blocks, replace every complete tag `<[^>]+>` by a
space, collapse whitespace runs, trim. -/
def stripHtmlSimple (html : String) : String :=
  let l1 := removeBlocks "<script".toList "</script>".toList html.toList
  let l2 := removeBlocks "<style".toList "</style>".toList l1
  let l3 := stripTagSpans l2
  String.mk (jsTrim (collapseWs l3))

/-- The character class `[A-ZÂ-Ź“"]` of the sentence-split lookahead in
`splitSentences`. -/
def sentenceLeadChar (c : Char) : Bool :=
  let n := c.val.toNat
  (0x41 ≤ n && n ≤ 0x5A) || (0xC2 ≤ n && n ≤ 0x179) ||
  n = 0x201C || n = 0x22

/-- Is `c` a sentence-terminal mark (`[\.\?\!]` of the split lookbehind)? -/
def sentenceEnd (c : Char) : Bool := c = '.' || c = '?' || c = '!'

/-- Core of `split(/(?<=[\.\?\!])\s+(?=[A-ZÂ-Ź“"])/g)`: walk the text
keeping the current piece reversed in `cur`; a maximal whitespace run that
is preceded by a terminal mark and followed by a `sentenceLeadChar` is a
split point (the run is consumed); any other whitespace run stays inside
the current piece.  Fueled like `removeBlocksF`. -/
def splitSentCoreF : Nat → List Char → List Char → List (List Char)
  | 0, cur, l => [cur.reverse ++ l]
  | _ + 1, cur, [] => [cur.reverse]
  | fuel + 1, cur, c :: rest =>
    if isJsWs c then
      let after := rest.dropWhile isJsWs
      let run := c :: rest.takeWhile isJsWs
      if (match cur with
          | p :: _ => sentenceEnd p
          | [] => false) &&
         (match after with
          | n :: _ => sentenceLeadChar n
          | [] => false) then
        cur.reverse :: splitSentCoreF fuel [] after
      else splitSentCoreF fuel (run.reverse ++ cur) after
    else splitSentCoreF fuel (c :: cur) rest

/-- Wrapper running `splitSentCoreF` with enough fuel. -/
def splitSentCore (cur : List Char) (l : List Char) : List (List Char) :=
  splitSentCoreF l.length cur l

/-- Function `splitSentences` from `lib/quoteEngine.ts`. -/
def splitSentences (idText : String) : List String :=
  let normalized := cleanSpaces idText
  let parts :=
    ((splitSentCore [] normalized.toList).map
        (fun piece => String.mk (jsTrim piece))).filter
      (fun x => x.length > 0)
  if parts.length > 0 then parts else [normalized]

/-- Function `clampLen` from `lib/quoteEngine.ts`. -/
def clampLen (s : String) (mn mx : Nat) : Bool :=
  decide (mn ≤ s.length) && decide (s.length ≤ mx)

/-- Is `needle` a contiguous substring of `hay` (JavaScript
`String.prototype.includes`)? -/
def strIncl (hay needle : String) : Bool :=
  go hay.toList needle.toList
where
  go : List Char → List Char → Bool
    | _, [] => true
    | [], _ :: _ => false
    | c :: r, n :: ns => (leadsOk (n :: ns) (c :: r)) || go r (n :: ns)
  leadsOk : List Char → List Char → Bool
    | [], _ => true
    | _ :: _, [] => false
    | p :: ps, d :: ds => p = d && leadsOk ps ds

/-- JavaScript `String.prototype.startsWith`. -/
def strLeads (hay needle : String) : Bool :=
  strIncl.leadsOk needle.toList hay.toList

/-- Constant `SAY_VERBS` from `lib/quoteEngine.ts`. -/
def SAY_VERBS : List String :=
  ["kata", "mengatakan", "ujar", "tutur", "jelas", "menjelaskan", "sebut",
   "menyebut", "imbuh", "tegas", "menegaskan", "ungkap", "mengungkap",
   "papar", "menyampaikan", "lanjut", "menambahkan"]

/-- Constant `MENHUB_TERMS` from `lib/quoteEngine.ts`. -/
def MENHUB_TERMS : List String := ["menhub", "menteri perhubungan", "kemenhub"]

/-- Record type `QuoteCandidate` from `lib/quoteEngine.ts`. -/
structure QuoteCandidate where
  text : String
  score : Nat
  reason : List String
deriving DecidableEq, Repr

/-- Split `l` at the first occurrence of `cl`, returning the (cl-free) part
before it and the part after it. -/
def splitAtFirst (cl : Char) : List Char → Option (List Char × List Char)
  | [] => none
  | c :: r =>
    if c = cl then some ([], r)
    else (splitAtFirst cl r).map (fun p => (c :: p.1, p.2))

/-- Matches of `/op([^cl]{8,400})cl/g` scanned left to right: at each
occurrence of the opening mark, the inner run up to the first closing mark
is a match when its length lies in `[8,400]` (scanning resumes after the
closing mark); otherwise the regex engine advances one position.  Fueled
like `removeBlocksF`: every recursive call strictly shortens the list, so
any `fuel ≥ l.length` gives the fixpoint. -/
def scanPairsF (op cl : Char) : Nat → List Char → List (List Char)
  | 0, _ => []
  | _ + 1, [] => []
  | fuel + 1, c :: r =>
    if c = op then
      match splitAtFirst cl r with
      | some (inner, rest) =>
        if 8 ≤ inner.length && inner.length ≤ 400 then
          inner :: scanPairsF op cl fuel rest
        else scanPairsF op cl fuel r
      | none => scanPairsF op cl fuel r
    else scanPairsF op cl fuel r

/-- Wrapper running `scanPairsF` with enough fuel. -/
def scanPairs (op cl : Char) (l : List Char) : List (List Char) :=
  scanPairsF op cl l.length l

/-- Function `extractQuotedFragments` from `lib/quoteEngine.ts`: all matches of
`/“([^”]{8,400})”/g` over the text, then all matches of `/"([^"]{8,400})"/g`,
each capture group passed through `cleanSpaces`. -/
def extractQuotedFragments (text : String) : List String :=
  (scanPairs '“' '”' text.toList).map (fun l => cleanSpaces (String.mk l)) ++
  (scanPairs '"' '"' text.toList).map (fun l => cleanSpaces (String.mk l))

/-- Signal 1 of `scoreSentence`: `/“[^”]{8,400}”/.test(text)`. -/
def hasFancyQuote (text : String) : Bool := !(scanPairs '“' '”' text.toList).isEmpty

/-- Signal 1 of `scoreSentence`: `/"[^"]{8,400}"/.test(text)`. -/
def hasAsciiQuote (text : String) : Bool := !(scanPairs '"' '"' text.toList).isEmpty

/-- Signal 2 of `scoreSentence` (and the `mentions` test of
`extractAttributedFragments`): some ministry alias occurs in the lowercased
text. -/
def mentionsMenhub (t : String) : Bool :=
  MENHUB_TERMS.any (fun k => strIncl t k)

/-- Signal 3 of `scoreSentence` (and the `says` test of
`extractAttributedFragments`): some speech verb occurs surrounded by spaces,
or sentence-initially followed by a space, in the lowercased text. -/
def hasSpeechVerb (t : String) : Bool :=
  SAY_VERBS.any (fun v => strIncl t (" " ++ v ++ " ") || strLeads t (v ++ " "))

/-- Signal 5 of `scoreSentence`: no URL
(`/https?:\/\//.test(text)`, case-sensitive on the original text) and no
boilerplate marker (`/baca juga|lihat juga|foto:/.test(t)`, on the lowercased
text). -/
def isContentful (text t : String) : Bool :=
  !(strIncl text "http://" || strIncl text "https://") &&
  !(strIncl t "baca juga" || strIncl t "lihat juga" || strIncl t "foto:")

/-- Function `scoreSentence` from `lib/quoteEngine.ts`: five independent additive
signals, each appending its name to `reason` when triggered. -/
def scoreSentence (s : String) : QuoteCandidate :=
  let text := cleanSpaces s
  let t := lowerStr text
  let sig1 := hasFancyQuote text || hasAsciiQuote text
  let sig2 := mentionsMenhub t
  let sig3 := hasSpeechVerb t
  let sig4 := clampLen text 40 220
  let sig5 := isContentful text t
  { text := text
    score :=
      (if sig1 then 4 else 0) + (if sig2 then 3 else 0) +
      (if sig3 then 2 else 0) + (if sig4 then 2 else 0) +
      (if sig5 then 1 else 0)
    reason :=
      (if sig1 then ["direct-quotes"] else []) ++
      (if sig2 then ["mentions-menhub"] else []) ++
      (if sig3 then ["speech-verb"] else []) ++
      (if sig4 then ["good-length"] else []) ++
      (if sig5 then ["contentful"] else []) }

/-- Function `extractAttributedFragments` from `lib/quoteEngine.ts`: sentences that
mention the ministry, contain a speech verb, and have length ≥ 30, passed
through `cleanSpaces`. -/
def extractAttributedFragments (text : String) : List String :=
  ((splitSentences text).filter
      (fun s => mentionsMenhub (lowerStr s) && hasSpeechVerb (lowerStr s) &&
        decide (30 ≤ s.length))).map cleanSpaces

/-- The input shape of `generateQuoteFromArticle`. -/
structure ArticleInput where
  title : Option String
  content : Option String

/-- The raw concatenation
`${input.title ? input.title + ". " : ""}${input.content ?? ""}` —
JavaScript truthiness makes an empty title behave like an absent one. -/
def rawOf (input : ArticleInput) : String :=
  let tp := input.title.getD ""
  (if tp = "" then "" else tp ++ ". ") ++ input.content.getD ""

/-- The normalized text `generateQuoteFromArticle` works on. -/
def articleText (input : ArticleInput) : String := stripHtmlSimple (rawOf input)

/-- Appending a provenance label to a candidate (`c.reason.push(...)`). -/
def withReason (c : QuoteCandidate) (r : String) : QuoteCandidate :=
  { c with reason := c.reason ++ [r] }

/-- The first sentence that mentions the ministry and has length ≥ 30 — the
tier-3 fallback loop of `generateQuoteFromArticle` (it `break`s after the
first hit). -/
def fallbackSentence (text : String) : Option String :=
  (splitSentences text).find?
    (fun s => mentionsMenhub (lowerStr s) && decide (30 ≤ s.length))

/-- The candidate list built by `generateQuoteFromArticle`: scored
direct-quote fragments, then scored attributed sentences; only when both
tiers are empty, the single scored fallback sentence. -/
def candidateList (text : String) : List QuoteCandidate :=
  let direct := (extractQuotedFragments text).map
    (fun frag => withReason (scoreSentence frag) "from-direct-fragment")
  let attributed := (extractAttributedFragments text).map
    (fun s => withReason (scoreSentence s) "from-attributed-sentence")
  let twoTier := direct ++ attributed
  if twoTier.isEmpty then
    match fallbackSentence text with
    | some s => [withReason (scoreSentence s) "fallback-mentions-menhub"]
    | none => []
  else twoTier

/-- The comparator-driven choice of `candidates.sort(...)[0]`: the sort is by
score descending, then text length ascending, and is stable (ECMAScript
guarantees a stable sort), so the head of the sorted array is the first
candidate that no other candidate strictly beats.  The left fold below keeps
the current best and replaces it exactly when a later candidate strictly
beats it, which yields that same first-minimal element. -/
def betterOf (b c : QuoteCandidate) : QuoteCandidate :=
  if b.score < c.score || (c.score = b.score && c.text.length < b.text.length)
  then c else b

/-- Winner of the sort-and-take-first step of `generateQuoteFromArticle`. -/
def pickBest (c : QuoteCandidate) (cs : List QuoteCandidate) : QuoteCandidate :=
  cs.foldl betterOf c

/-- The winning candidate of `generateQuoteFromArticle` before the final
length cap, or `none` when no candidate exists. -/
def bestCandidate (input : ArticleInput) : Option QuoteCandidate :=
  match candidateList (articleText input) with
  | [] => none
  | c :: cs => some (pickBest c cs)

/-- The final length cap:
`best.text.length > 280 ? best.text.slice(0, 277).trimEnd() + "…" : best.text`. -/
def capQuoteText (s : String) : String :=
  if 280 < s.length then
    String.mk (trimTrailWs (s.toList.take 277)) ++ "…"
  else s

/-- Function `generateQuoteFromArticle` from `lib/quoteEngine.ts`. -/
def generateQuoteFromArticle (input : ArticleInput) : Option QuoteCandidate :=
  let text := articleText input
  if text = "" then none
  else
    match candidateList text with
    | [] => none
    | c :: cs =>
      let best := pickBest c cs
      some { best with text := capQuoteText best.text }

/-- The simplified `rss-parser` item shape (`RSSItem` in
`app/api/items/route.ts`). -/
structure RSSItem where
  title : Option String
  link : Option String
  pubDate : Option String
  contentSnippet : Option String
deriving DecidableEq, Repr

/-- Function `matchKeywords` from `app/api/items/route.ts`: case-insensitive substring
membership of any keyword in either text. -/
def matchKeywords (textA textB : String) (keywords : List String) : Bool :=
  let a := lowerStr textA
  let b := lowerStr textB
  keywords.any (fun k =>
    let kk := lowerStr k
    strIncl a kk || strIncl b kk)

namespace RouteV3

/-- Record type `NewsOut` of the `route.ts` variant with the `seen`-set; its `publishedAt`
holds the parsed timestamp (epoch milliseconds); the `toISOString`
serialization belongs to the excluded runtime. -/
structure NewsOut where
  id : String
  title : String
  source : String
  publishedAt : Int
  link : String
  summary : String
  entities : List String
deriving DecidableEq, Repr

/-- The record assembled for one accepted item (`base` in the source). -/
def mkBase (source : String) (it : RSSItem) (t : Int) : NewsOut :=
  let title := it.title.getD ""
  let link := it.link.getD ""
  { id := source ++ "#" ++ link
    title := if title = "" then "(tanpa judul)" else title
    source := source
    publishedAt := t
    link := link
    summary := it.contentSnippet.getD ""
    entities := [] }

/-- The three accumulators of `loadNewsFromFeeds`. -/
structure Acc where
  seen : List String
  hits : List NewsOut
  raw : List NewsOut
deriving Repr

/-- The body of the per-item loop of `loadNewsFromFeeds`: skip when the link
is absent/empty, when `pubDate` is absent/empty, or when it does not parse;
skip when the id was already seen; otherwise record the item, additionally
into `hits` when the keywords match. -/
def stepItem (parse : String → Option Int) (keywords : List String)
    (source : String) (st : Acc) (it : RSSItem) : Acc :=
  let link := it.link.getD ""
  if link = "" then st
  else
    match it.pubDate with
    | none => st
    | some d =>
      if d = "" then st
      else
        match parse d with
        | none => st
        | some t =>
          let id := source ++ "#" ++ link
          if id ∈ st.seen then st
          else
            let base := mkBase source it t
            { seen := id :: st.seen
              hits :=
                if matchKeywords (it.title.getD "") (it.contentSnippet.getD "")
                    keywords
                then st.hits ++ [base] else st.hits
              raw := st.raw ++ [base] }

/-- A feed after the excluded fetch/parse step: its source domain and its
items.  A feed whose fetch failed contributes an empty item list (the
`catch { continue }` path). -/
def Feed := String × List RSSItem

/-- Folding the per-item loop over all feeds. -/
def processFeeds (parse : String → Option Int) (keywords : List String)
    (feeds : List (String × List RSSItem)) : Acc :=
  feeds.foldl (fun st f => f.2.foldl (stepItem parse keywords f.1) st)
    ⟨[], [], []⟩

/-- Sorting by `byDateDesc` (stable, newest first). -/
def sortByDateDesc (l : List NewsOut) : List NewsOut :=
  l.insertionSort (fun a b => b.publishedAt ≤ a.publishedAt)

/-- Function `loadNewsFromFeeds` of the `seen`-set variant: keyword hits sorted by
recency; when there are none, either nothing (`allowFallback` off) or the
`fallbackCount` most recent raw items. -/
def loadNewsFromFeeds (parse : String → Option Int) (keywords : List String)
    (allowFallback : Bool) (fallbackCount : Nat)
    (feeds : List (String × List RSSItem)) : List NewsOut :=
  let st := processFeeds parse keywords feeds
  let hits := sortByDateDesc st.hits
  let raw := sortByDateDesc st.raw
  if hits.isEmpty then
    if allowFallback then raw.take fallbackCount else []
  else hits

end RouteV3

namespace RouteV2

/-- Record type `NewsOut` of the earlier `route.ts` variant (with the fallback `note`). -/
structure NewsOut where
  id : String
  title : String
  source : String
  publishedAt : Int
  link : String
  summary : String
  entities : List String
  note : Option String
deriving DecidableEq, Repr

/-- Record type `EventOut` as declared in this `route.ts` variant (its collection is
still assembled empty — `const events: EventOut[] = []`). -/
structure EventOut where
  id : String
  title : String
  date : Int
  location : String
  attendedByMinister : Bool
  source : String
  tags : List String
  summary : String
  link : String
deriving DecidableEq, Repr

/-- Record type `QuoteOut` as declared in this `route.ts` variant (its collection is
still assembled empty — `const quotes: QuoteOut[] = []`). -/
structure QuoteOut where
  id : String
  text : String
  speaker : String
  date : Int
  context : String
  link : String
  tags : List String
deriving DecidableEq, Repr

/-- Record type `ItemsResponse` of this variant. -/
structure ItemsResponse where
  news : List NewsOut
  events : List EventOut
  quotes : List QuoteOut
deriving Repr

/-- The record assembled for one accepted item. -/
def mkBase (source : String) (it : RSSItem) (t : Int) : NewsOut :=
  let title := it.title.getD ""
  let link := it.link.getD ""
  { id := source ++ "#" ++ link
    title := if title = "" then "(tanpa judul)" else title
    source := source
    publishedAt := t
    link := link
    summary := it.contentSnippet.getD ""
    entities := ["Kemenhub"]
    note := none }

/-- The two accumulators of this variant's `loadNewsFromFeeds` (no `seen`
set here). -/
structure Acc where
  hits : List NewsOut
  raw : List NewsOut
deriving Repr

/-- Per-item loop body: skip when the link is absent/empty or the date is
absent/empty/unparseable; otherwise record the item, additionally into
`hits` when the keywords match. -/
def stepItem (parse : String → Option Int) (keywords : List String)
    (source : String) (st : Acc) (it : RSSItem) : Acc :=
  let link := it.link.getD ""
  if link = "" then st
  else
    match it.pubDate with
    | none => st
    | some d =>
      if d = "" then st
      else
        match parse d with
        | none => st
        | some t =>
          let base := mkBase source it t
          { hits :=
              if matchKeywords (it.title.getD "") (it.contentSnippet.getD "")
                  keywords
              then st.hits ++ [base] else st.hits
            raw := st.raw ++ [base] }

/-- Folding the per-item loop over all feeds. -/
def processFeeds (parse : String → Option Int) (keywords : List String)
    (feeds : List (String × List RSSItem)) : Acc :=
  feeds.foldl (fun st f => f.2.foldl (stepItem parse keywords f.1) st) ⟨[], []⟩

/-- Sorting by `byDateDesc` (stable, newest first). -/
def sortByDateDesc (l : List NewsOut) : List NewsOut :=
  l.insertionSort (fun a b => b.publishedAt ≤ a.publishedAt)

/-- Function `loadNewsFromFeeds` of this variant: keyword hits sorted by recency;
when there are none, the `fallbackCount` most recent raw items are always
returned, marked with `note: "fallback_no_keyword_hits"`. -/
def loadNewsFromFeeds (parse : String → Option Int) (keywords : List String)
    (fallbackCount : Nat)
    (feeds : List (String × List RSSItem)) : List NewsOut :=
  let st := processFeeds parse keywords feeds
  let hits := sortByDateDesc st.hits
  let raw := sortByDateDesc st.raw
  if hits.isEmpty then
    (raw.take fallbackCount).map
      (fun n => { n with note := some "fallback_no_keyword_hits" })
  else hits

/-- The `GET` assembly of this variant: news from the feeds, events and
quotes still hard-coded empty. -/
def getItems (parse : String → Option Int) (keywords : List String)
    (fallbackCount : Nat)
    (feeds : List (String × List RSSItem)) : ItemsResponse :=
  { news := loadNewsFromFeeds parse keywords fallbackCount feeds
    events := []
    quotes := [] }

end RouteV2

namespace EventInference

/-- Modelled from the spec: the event-inference stage is absent from the
route variants in the repository snapshot (they assemble
`const events: EventOut[] = []` with a "next stage" comment), so §4.6 of the
spec is modelled here.  The spec names "a fixed list of future-tense markers"
without enumerating it; these are the target language's standard
future-tense markers. -/
def futureMarkers : List String := ["akan", "bakal", "besok"]

/-- Modelled from the spec: "a fixed list of event-indicating verbs/nouns
(e.g. 'inauguration', 'groundbreaking', 'coordination meeting')", rendered
in the target language. -/
def eventTerms : List String :=
  ["peresmian", "resmikan", "groundbreaking", "rapat koordinasi", "rapat",
   "kunjungan"]

/-- Whole-word containment: the marker equals one of the maximal
alphanumeric runs of the lowercased text. -/
def wordsOf (t : String) : List String :=
  (((lowerStr t).toList.splitOnP (fun c => !c.isAlphanum)).filter
      (fun w => !w.isEmpty)).map String.mk

/-- Does the combined text contain a future-tense marker as a whole word? -/
def hasFutureMarker (t : String) : Bool :=
  futureMarkers.any (fun m => (wordsOf t).contains m)

/-- Modelled from the spec: `looksLikeEvent` is a disjunction of the
event-term test and the future-marker test (the two date-pattern disjuncts
of §4.6 are left out because the spec gives no concrete pattern; they could
only classify additional marker-free items, whose event date is unshifted
anyway). -/
def looksLikeEvent (title summary : String) : Bool :=
  let combined := lowerStr (title ++ " " ++ summary)
  eventTerms.any (fun k => strIncl combined k) || hasFutureMarker combined

/-- Modelled from the spec: `guessLocation` — a preposition meaning "at/in"
followed by a capitalized phrase; placeholder `"-"` when no match. -/
def guessLocation (text : String) : String :=
  go ((text.toList.splitOnP (fun c => c = ' ')).map String.mk)
where
  go : List String → String
    | [] => "-"
    | [_] => "-"
    | w :: next :: rest =>
      if w = "di" && (match next.toList with
        | c :: _ => c.isUpper
        | [] => false) then next
      else go (next :: rest)

/-- One day in epoch milliseconds: in the UTC timeline of the ISO-8601
dates the pipeline emits, "+1 calendar day" is exactly this shift. -/
def oneDayMs : Int := 86400000

/-- The `EventRecord` of §3, using the field shape that the route variants
declare as `EventOut`. -/
structure EventRecord where
  id : String
  title : String
  date : Int
  location : String
  attendedByMinister : Bool
  source : String
  tags : List String
  summary : String
  link : String
deriving DecidableEq, Repr

/-- The combined text of a news record used by the event heuristics. -/
def combinedText (n : RouteV3.NewsOut) : String := n.title ++ " " ++ n.summary

/-- Modelled from the spec: `inferEvent(newsRecord) -> EventRecord | null` —
produced only when the item looks event-like; its date is the news record's
published-at, shifted forward exactly one calendar day when the combined
text contains a future-tense marker as a whole word. -/
def inferEvent (n : RouteV3.NewsOut) : Option EventRecord :=
  if looksLikeEvent n.title n.summary then
    some
      { id := "evt#" ++ n.id
        title := n.title
        date :=
          if hasFutureMarker (lowerStr (combinedText n)) then
            n.publishedAt + oneDayMs
          else n.publishedAt
        location := guessLocation (combinedText n)
        attendedByMinister := mentionsMenhub (lowerStr (combinedText n))
        source := n.source
        tags := []
        summary := n.summary
        link := n.link }
  else none

/-- Modelled from the spec: the aggregation's events collection — one
inferred record per event-like news record. -/
def inferEvents (news : List RouteV3.NewsOut) : List EventRecord :=
  news.filterMap inferEvent

end EventInference

namespace ItemRepair

end ItemRepair

/-- Relation expressing "no two adjacent whitespace characters", the testable-property shape of
§8's whitespace guarantee. -/
def wsOk (a b : Char) : Prop := ¬(isJsWs a = true ∧ isJsWs b = true)

/-- Function `squashSpaces` keeps the head of its input. -/
theorem squashSpaces_head? : ∀ m : List Char, (squashSpaces m).head? = m.head? := by
  intro m
  induction m using squashSpaces.induct with
  | case1 => rfl
  | case2 c => rfl
  | case3 a b r hab ih =>
    rw [squashSpaces, if_pos hab, ih]
    have ha : a = ' ' := by
      have := hab
      simp only [Bool.and_eq_true, decide_eq_true_eq] at this
      exact this.1
    have hb : b = ' ' := by
      have := hab
      simp only [Bool.and_eq_true, decide_eq_true_eq] at this
      exact this.2
    simp [ha, hb]
  | case4 a b r hab ih =>
    rw [squashSpaces, if_neg hab]
    rfl

/-- If all whitespace in `m` is a plain space, the squashed list has no two
adjacent whitespace characters. -/
theorem chain'_wsOk_squashSpaces :
    ∀ m : List Char, (∀ c ∈ m, isJsWs c = true → c = ' ') →
      List.Chain' wsOk (squashSpaces m) := by
  intro m
  induction m using squashSpaces.induct with
  | case1 => intro _; exact List.chain'_nil
  | case2 c => intro _; exact List.chain'_singleton c
  | case3 a b r hab ih =>
    intro hall
    rw [squashSpaces, if_pos hab]
    exact ih (fun c hc => hall c (List.mem_cons_of_mem a hc))
  | case4 a b r hab ih =>
    intro hall
    rw [squashSpaces, if_neg hab]
    rw [List.chain'_cons']
    refine ⟨?_, ih (fun c hc => hall c (List.mem_cons_of_mem a hc))⟩
    intro y hy hcon
    rw [squashSpaces_head?] at hy
    simp only [List.head?_cons, Option.mem_def, Option.some.injEq] at hy
    have ha : a = ' ' := hall a (by simp) hcon.1
    have hb : b = ' ' := by
      refine hall b (by simp) ?_
      rw [hy]
      exact hcon.2
    rw [ha, hb] at hab
    simp at hab

/-- Output of `collapseWs` never has two adjacent whitespace characters. -/
theorem chain'_wsOk_collapseWs (l : List Char) :
    List.Chain' wsOk (collapseWs l) := by
  refine chain'_wsOk_squashSpaces (l.map wsToSpace) ?_
  intro c hc hws
  obtain ⟨a, _, ha⟩ := List.mem_map.mp hc
  unfold wsToSpace at ha
  by_cases h : isJsWs a = true
  · rw [if_pos h] at ha; exact ha.symm
  · rw [if_neg h] at ha
    rw [ha] at h
    exact absurd hws h

/-- Function `jsTrim` keeps a contiguous part of its input. -/
theorem jsTrim_contiguous (l : List Char) : jsTrim l <:+: l := by
  have h1 : trimTrailWs (trimLeadWs l) <+: trimLeadWs l := by
    have h := (List.dropWhile_suffix (l := (trimLeadWs l).reverse) isJsWs).reverse
    simpa [trimTrailWs] using h
  have h2 : trimLeadWs l <:+ l := List.dropWhile_suffix isJsWs
  exact List.IsInfix.trans (List.IsPrefix.isInfix h1) (List.IsSuffix.isInfix h2)

/-- The whitespace half of §8's normalizer property, for `cleanSpaces`. -/
theorem chain'_wsOk_cleanSpaces (s : String) :
    List.Chain' wsOk (cleanSpaces s).toList :=
  List.Chain'.infix (chain'_wsOk_collapseWs s.toList) (jsTrim_contiguous _)

/-- C5 counterexample: the normalizer does not remove every `<` and `>` —
an angle bracket that is not part of a complete `<...>` tag survives
`stripHtmlSimple`, because the tag regex `/<[^>]+>/` needs a closing `>`
(and `<script`/`<style` blocks need their closing literal). -/
theorem c5_counterexample :
    '<' ∈ (stripHtmlSimple "a < b").toList ∧
    '>' ∈ (stripHtmlSimple "a > b").toList ∧
    stripHtmlSimple "a < b" = "a < b" := by
  refine ⟨by decide, by decide, by decide⟩

/-- C5 (amended): for every input string, the normalizer's output contains
no run of two or more consecutive whitespace characters; the no-`<`/no-`>`
part of the claim does not hold (see the counterexample). -/
theorem c5_no_double_whitespace (s : String) :
    List.Chain' wsOk (stripHtmlSimple s).toList := by
  unfold stripHtmlSimple
  exact List.Chain'.infix (chain'_wsOk_collapseWs _) (jsTrim_contiguous _)

set_option maxRecDepth 40000 in
/-- C6: the quoted-fragment extractor's inner-length band is `[8,400]` with
inclusive boundaries, for the curly-quote and the straight-double-quote
delimiters alike: 8 and 400 enclosed characters are returned, 7 and 401 are
not (for 7 and 401 nothing is returned at all). -/
theorem c6_length_band :
    extractQuotedFragments ("“" ++ String.mk (List.replicate 8 'a') ++ "”") =
      [String.mk (List.replicate 8 'a')] ∧
    extractQuotedFragments ("“" ++ String.mk (List.replicate 7 'a') ++ "”") = [] ∧
    extractQuotedFragments ("“" ++ String.mk (List.replicate 400 'a') ++ "”") =
      [String.mk (List.replicate 400 'a')] ∧
    extractQuotedFragments ("“" ++ String.mk (List.replicate 401 'a') ++ "”") = [] ∧
    extractQuotedFragments ("\"" ++ String.mk (List.replicate 8 'a') ++ "\"") =
      [String.mk (List.replicate 8 'a')] ∧
    extractQuotedFragments ("\"" ++ String.mk (List.replicate 7 'a') ++ "\"") = [] ∧
    extractQuotedFragments ("\"" ++ String.mk (List.replicate 400 'a') ++ "\"") =
      [String.mk (List.replicate 400 'a')] ∧
    extractQuotedFragments ("\"" ++ String.mk (List.replicate 401 'a') ++ "\"") = [] := by
  refine ⟨by decide, by decide, by decide, by decide, by decide, by decide,
    by decide, by decide⟩

/-- Sums of the five weighted signals stay within `[0,12]`. -/
theorem weight_sum_le_12 (b1 b2 b3 b4 b5 : Bool) :
    (if b1 then 4 else 0) + (if b2 then 3 else 0) + (if b3 then 2 else 0) +
      (if b4 then 2 else 0) + (if b5 then 1 else 0) ≤ 12 := by
  cases b1 <;> cases b2 <;> cases b3 <;> cases b4 <;> cases b5 <;> decide

/-- C7: the candidate scorer is additive over the five independent signals
with fixed weights 4/3/2/2/1, so every score lies in `[0,12]` (scores are
naturals, so nonnegativity is definitional); a fragment triggering exactly
the direct-quote and ministry-mention signals scores exactly `4 + 3 = 7`,
and its reasons list carries both signal names (the code labels the
ministry-mention signal `"mentions-menhub"`, the spec's generic name for it
is "mentions-ministry"). -/
theorem c7_scorer_additive (s : String) :
    (scoreSentence s).score =
      (if hasFancyQuote (cleanSpaces s) || hasAsciiQuote (cleanSpaces s) then 4 else 0) +
      (if mentionsMenhub (lowerStr (cleanSpaces s)) then 3 else 0) +
      (if hasSpeechVerb (lowerStr (cleanSpaces s)) then 2 else 0) +
      (if clampLen (cleanSpaces s) 40 220 then 2 else 0) +
      (if isContentful (cleanSpaces s) (lowerStr (cleanSpaces s)) then 1 else 0) ∧
    (scoreSentence s).score ≤ 12 ∧
    ((hasFancyQuote (cleanSpaces s) || hasAsciiQuote (cleanSpaces s)) = true →
     mentionsMenhub (lowerStr (cleanSpaces s)) = true →
     hasSpeechVerb (lowerStr (cleanSpaces s)) = false →
     clampLen (cleanSpaces s) 40 220 = false →
     isContentful (cleanSpaces s) (lowerStr (cleanSpaces s)) = false →
     (scoreSentence s).score = 7 ∧
     "direct-quotes" ∈ (scoreSentence s).reason ∧
     "mentions-menhub" ∈ (scoreSentence s).reason) := by
  refine ⟨rfl, ?_, ?_⟩
  · exact weight_sum_le_12 _ _ _ _ _
  · intro h1 h2 h3 h4 h5
    unfold scoreSentence
    simp only [h1, h2, h3, h4, h5]
    refine ⟨rfl, ?_, ?_⟩ <;> simp

/-- C7 witness: `"“menhub12” http://a"` triggers exactly the direct-quote
and ministry-mention signals (the URL defeats the contentful signal, the
length lies outside `[40,220]`, and no speech verb occurs), so it scores 7
with both reasons recorded. -/
theorem c7_scorer_additive_witness :
    (scoreSentence "“menhub12” http://a").score = 7 ∧
    "direct-quotes" ∈ (scoreSentence "“menhub12” http://a").reason ∧
    "mentions-menhub" ∈ (scoreSentence "“menhub12” http://a").reason :=
  (c7_scorer_additive "“menhub12” http://a").2.2 (by decide) (by decide)
    (by decide) (by decide) (by decide)

/-- The candidate pool is empty exactly when all three tiers found
nothing. -/
theorem candidateList_eq_nil_iff (text : String) :
    candidateList text = [] ↔
      extractQuotedFragments text = [] ∧
      extractAttributedFragments text = [] ∧
      fallbackSentence text = none := by
  unfold candidateList
  by_cases h1 : extractQuotedFragments text = []
  · by_cases h2 : extractAttributedFragments text = []
    · simp only [h1, h2, List.map_nil, List.append_nil, List.isEmpty_nil,
        if_true]
      match hf : fallbackSentence text with
      | some s => simp [hf]
      | none => simp [hf]
    · have hne : (extractAttributedFragments text).map
          (fun s => withReason (scoreSentence s) "from-attributed-sentence") ≠ [] := by
        simpa using h2
      simp only [h1, List.map_nil, List.nil_append]
      rw [if_neg (by simpa using hne)]
      simp [hne, h2]
  · have hne : (extractQuotedFragments text).map
        (fun frag => withReason (scoreSentence frag) "from-direct-fragment") ≠ [] := by
      simpa using h1
    rw [if_neg (by simp [hne])]
    simp [hne, h1]

/-- C10: `generateQuoteFromArticle` returns `null` exactly when no candidate
exists — the HTML-stripped, whitespace-collapsed concatenation of title and
content is empty, or there is no enclosed-quote fragment (inner length
8–400), no sentence of length ≥ 30 that both mentions a ministry alias and
contains a speech verb, and no sentence of length ≥ 30 that mentions a
ministry alias (the tier-3 fallback). -/
theorem c10_null_iff_no_candidate (input : ArticleInput) :
    generateQuoteFromArticle input = none ↔
      (articleText input = "" ∨
       (extractQuotedFragments (articleText input) = [] ∧
        (∀ s ∈ splitSentences (articleText input),
          ¬(mentionsMenhub (lowerStr s) = true ∧ hasSpeechVerb (lowerStr s) = true ∧
            30 ≤ s.length)) ∧
        (∀ s ∈ splitSentences (articleText input),
          ¬(mentionsMenhub (lowerStr s) = true ∧ 30 ≤ s.length)))) := by
  have hattr : extractAttributedFragments (articleText input) = [] ↔
      ∀ s ∈ splitSentences (articleText input),
        ¬(mentionsMenhub (lowerStr s) = true ∧ hasSpeechVerb (lowerStr s) = true ∧
          30 ≤ s.length) := by
    unfold extractAttributedFragments
    rw [List.map_eq_nil_iff, List.filter_eq_nil_iff]
    constructor
    · intro h s hs hcon
      exact h s hs (by simp [hcon.1, hcon.2.1, hcon.2.2])
    · intro h s hs hcon
      simp only [Bool.and_eq_true, decide_eq_true_eq] at hcon
      exact h s hs ⟨hcon.1.1, hcon.1.2, hcon.2⟩
  have hfall : fallbackSentence (articleText input) = none ↔
      ∀ s ∈ splitSentences (articleText input),
        ¬(mentionsMenhub (lowerStr s) = true ∧ 30 ≤ s.length) := by
    unfold fallbackSentence
    rw [List.find?_eq_none]
    constructor
    · intro h s hs hcon
      exact h s hs (by simp [hcon.1, hcon.2])
    · intro h s hs hcon
      simp only [Bool.and_eq_true, decide_eq_true_eq] at hcon
      exact h s hs hcon
  unfold generateQuoteFromArticle
  by_cases ht : articleText input = ""
  · simp [ht]
  · rw [if_neg ht]
    constructor
    · intro h
      match hc : candidateList (articleText input) with
      | c :: cs => rw [hc] at h; simp at h
      | [] =>
        have := (candidateList_eq_nil_iff (articleText input)).mp hc
        exact Or.inr ⟨this.1, hattr.mp this.2.1, hfall.mp this.2.2⟩
    · intro h
      rcases h with h | ⟨h1, h2, h3⟩
      · exact absurd h ht
      · have hc : candidateList (articleText input) = [] :=
          (candidateList_eq_nil_iff (articleText input)).mpr
            ⟨h1, hattr.mpr h2, hfall.mpr h3⟩
        rw [hc]

theorem betterOf_score_left (b c : QuoteCandidate) :
    b.score ≤ (betterOf b c).score := by
  unfold betterOf
  split
  · next h =>
    simp only [Bool.or_eq_true, decide_eq_true_eq, Bool.and_eq_true] at h
    rcases h with h | ⟨h, _⟩
    · exact Nat.le_of_lt h
    · exact Nat.le_of_eq h.symm
  · exact Nat.le_refl _

theorem betterOf_score_right (b c : QuoteCandidate) :
    c.score ≤ (betterOf b c).score := by
  unfold betterOf
  split
  · exact Nat.le_refl _
  · next h =>
    simp only [Bool.or_eq_true, decide_eq_true_eq, Bool.and_eq_true,
      not_or, not_and] at h
    exact Nat.le_of_not_lt h.1

/-- The fold implementing `sort`-then-`[0]` picks a candidate whose score no
other candidate exceeds. -/
theorem pickBest_score_max (cs : List QuoteCandidate) :
    ∀ c : QuoteCandidate, c.score ≤ (pickBest c cs).score ∧
      ∀ d ∈ cs, d.score ≤ (pickBest c cs).score := by
  induction cs with
  | nil => intro c; exact ⟨Nat.le_refl _, by simp⟩
  | cons d ds ih =>
    intro c
    have hstep : pickBest c (d :: ds) = pickBest (betterOf c d) ds := rfl
    refine ⟨?_, ?_⟩
    · rw [hstep]
      exact Nat.le_trans (betterOf_score_left c d) (ih (betterOf c d)).1
    · intro e he
      rcases List.mem_cons.mp he with he | he
      · rw [hstep, he]
        exact Nat.le_trans (betterOf_score_right c d) (ih (betterOf c d)).1
      · rw [hstep]
        exact (ih (betterOf c d)).2 e he

/-- C8 counterexample: an enclosed-quotation fragment exists, yet the
selection's winner is the attributed sentence, not a direct-quote-tier
candidate — the surrounding sentence also contains the quote pair and so
collects the +4 direct-quotes signal on top of mention/speech/length
signals, while the bare inner fragment scores lower. -/
theorem c8_counterexample :
    (extractQuotedFragments (articleText
      ⟨none, some "Menhub mengatakan “pembangunan ini akan selesai tepat waktu” kata Menhub."⟩)).length = 1 ∧
    (generateQuoteFromArticle
      ⟨none, some "Menhub mengatakan “pembangunan ini akan selesai tepat waktu” kata Menhub."⟩).map
      (fun c => c.reason.contains "from-direct-fragment") = some false ∧
    (generateQuoteFromArticle
      ⟨none, some "Menhub mengatakan “pembangunan ini akan selesai tepat waktu” kata Menhub."⟩).map
      (fun c => c.reason.contains "from-attributed-sentence") = some true := by
  refine ⟨by decide, by decide, by decide⟩

/-- C8 (amended): whenever at least one enclosed-quotation fragment exists,
the candidate pool is non-empty and the selection returns a winner whose
score no candidate — direct or attributed — exceeds; the direct-quote tier
is favored only through its +4 scoring signal, not strictly, and an
attributed sentence with a higher score wins (see the counterexample). -/
theorem c8_winner_maximal_score (input : ArticleInput)
    (hq : extractQuotedFragments (articleText input) ≠ []) :
    ∃ c, generateQuoteFromArticle input = some c ∧
      ∀ d ∈ candidateList (articleText input), d.score ≤ c.score := by
  have ht : articleText input ≠ "" := by
    intro h
    rw [h] at hq
    exact hq rfl
  have hc : candidateList (articleText input) ≠ [] := by
    intro h
    exact hq ((candidateList_eq_nil_iff _).mp h).1
  unfold generateQuoteFromArticle
  rw [if_neg ht]
  match hl : candidateList (articleText input) with
  | [] => exact absurd hl hc
  | c :: cs =>
    refine ⟨_, rfl, ?_⟩
    intro d hd
    rcases List.mem_cons.mp hd with hd | hd
    · rw [hd]
      exact (pickBest_score_max cs c).1
    · exact (pickBest_score_max cs c).2 d hd

/-- C8 witness at the counterexample input: a quote pair is present and the
returned winner's score dominates the whole pool. -/
theorem c8_winner_maximal_score_witness :
    ∃ c, generateQuoteFromArticle
        ⟨none, some "Menhub mengatakan “pembangunan ini akan selesai tepat waktu” kata Menhub."⟩ = some c ∧
      ∀ d ∈ candidateList (articleText
        ⟨none, some "Menhub mengatakan “pembangunan ini akan selesai tepat waktu” kata Menhub."⟩),
        d.score ≤ c.score :=
  c8_winner_maximal_score _ (by decide)

theorem trimTrailWs_length_le (l : List Char) :
    (trimTrailWs l).length ≤ l.length := by
  unfold trimTrailWs
  rw [List.length_reverse]
  have h := (List.dropWhile_sublist (l := l.reverse) isJsWs).length_le
  rw [List.length_reverse] at h
  exact h

theorem candidateList_empty_text : candidateList "" = [] := by decide

/-- An article whose only candidate is a 300-character enclosed quotation
with no whitespace near the cap boundary. -/
def longQuoteArticle : ArticleInput :=
  ⟨none, some ("“" ++ String.mk (List.replicate 300 'a') ++ "”")⟩

/-- The winning candidate for `longQuoteArticle`: the bare fragment scores
only the contentful signal. -/
def longQuoteWinner : QuoteCandidate :=
  ⟨String.mk (List.replicate 300 'a'), 1, ["contentful", "from-direct-fragment"]⟩

/-- An article whose only candidate is a 300-character enclosed quotation
with a space at index 276, right at the truncation boundary. -/
def longQuoteSpaceArticle : ArticleInput :=
  ⟨none, some ("“" ++
    String.mk (List.replicate 276 'a' ++ [' '] ++ List.replicate 23 'b') ++ "”")⟩

set_option maxRecDepth 40000 in
/-- C9 counterexample: a winning quote of exactly 300 characters need not
yield 278 emitted characters — the code right-trims the 277-character
prefix before appending the ellipsis (`slice(0, 277).trimEnd() + "…"`), so
a space at index 276 gives 276 + 1 = 277 characters total. -/
theorem c9_counterexample :
    (bestCandidate longQuoteSpaceArticle).map (fun b => b.text.length) =
      some 300 ∧
    (generateQuoteFromArticle longQuoteSpaceArticle).map
      (fun c => c.text.length) = some 277 := by
  refine ⟨by decide, by decide⟩

/-- C9 (amended): if the winning candidate's text exceeds 280 characters,
the emitted text is the first 277 characters with trailing whitespace
removed, plus one ellipsis marker — hence at most 278 characters total, and
exactly 278 only when the 277-character prefix ends in non-whitespace. -/
theorem c9_truncation (input : ArticleInput) (b : QuoteCandidate)
    (hb : bestCandidate input = some b) (hlen : 280 < b.text.length) :
    generateQuoteFromArticle input = some
      { b with text := String.mk (trimTrailWs (b.text.toList.take 277)) ++ "…" } ∧
    (String.mk (trimTrailWs (b.text.toList.take 277)) ++ "…").length ≤ 278 := by
  have ht : articleText input ≠ "" := by
    intro h
    unfold bestCandidate at hb
    rw [h, candidateList_empty_text] at hb
    simp at hb
  constructor
  · unfold generateQuoteFromArticle
    rw [if_neg ht]
    unfold bestCandidate at hb
    match hl : candidateList (articleText input) with
    | [] => rw [hl] at hb; simp at hb
    | c :: cs =>
      rw [hl] at hb
      simp only [Option.some.injEq] at hb
      dsimp only
      rw [hb]
      unfold capQuoteText
      rw [if_pos hlen]
  · rw [String.length_append]
    have h1 : (String.mk (trimTrailWs (b.text.toList.take 277))).length ≤ 277 := by
      have h2 := trimTrailWs_length_le (b.text.toList.take 277)
      have h3 : (b.text.toList.take 277).length ≤ 277 := by
        rw [List.length_take]
        exact Nat.min_le_left _ _
      calc (String.mk (trimTrailWs (b.text.toList.take 277))).length
          = (trimTrailWs (b.text.toList.take 277)).length := rfl
        _ ≤ 277 := Nat.le_trans h2 h3
    have h4 : ("…" : String).length = 1 := rfl
    omega

set_option maxRecDepth 40000 in
/-- C9 witness: the 300-character all-`a` winner has no whitespace at the
boundary, so the amended truncation shape applies (278 characters total
here). -/
theorem c9_truncation_witness :
    generateQuoteFromArticle longQuoteArticle = some
      { longQuoteWinner with
        text := String.mk (trimTrailWs (longQuoteWinner.text.toList.take 277)) ++ "…" } ∧
    (String.mk (trimTrailWs (longQuoteWinner.text.toList.take 277)) ++ "…").length ≤ 278 :=
  c9_truncation longQuoteArticle longQuoteWinner (by decide) (by decide)

/-- Left folds preserve step-invariant properties. -/
theorem foldl_preserves {α β : Type} (P : α → Prop) (f : α → β → α)
    (hf : ∀ a b, P a → P (f a b)) :
    ∀ (l : List β) (a : α), P a → P (l.foldl f a) := by
  intro l
  induction l with
  | nil => intro a ha; exact ha
  | cons b bs ih => intro a ha; exact ih (f a b) (hf a b ha)

namespace RouteV3

/-- Any property preserved by `stepItem` and true of the empty state holds
of the fully folded state. -/
theorem processFeedsV3_inv (P : Acc → Prop)
    (parse : String → Option Int) (keywords : List String)
    (feeds : List (String × List RSSItem))
    (h0 : P ⟨[], [], []⟩)
    (hstep : ∀ src st it, P st → P (stepItem parse keywords src st it)) :
    P (processFeeds parse keywords feeds) := by
  unfold processFeeds
  refine foldl_preserves P _ ?_ feeds _ h0
  intro st f hst
  exact foldl_preserves P _ (fun a b ha => hstep f.1 a b ha) f.2 st hst

/-- The dedup invariant carried through the per-item loop: every recorded
id is in `seen`, and both accumulators have pairwise-distinct ids. -/
def DedupInv (st : Acc) : Prop :=
  (st.raw.map NewsOut.id).Nodup ∧ (st.hits.map NewsOut.id).Nodup ∧
  (∀ r ∈ st.raw, r.id ∈ st.seen) ∧ (∀ r ∈ st.hits, r.id ∈ st.seen)

theorem stepItem_dedupInv (parse : String → Option Int)
    (keywords : List String) (src : String) (st : Acc) (it : RSSItem)
    (h : DedupInv st) : DedupInv (stepItem parse keywords src st it) := by
  obtain ⟨hraw, hhits, hrawSeen, hhitsSeen⟩ := h
  unfold stepItem
  by_cases hlink : it.link.getD "" = ""
  · rw [if_pos hlink]; exact ⟨hraw, hhits, hrawSeen, hhitsSeen⟩
  · rw [if_neg hlink]
    match it.pubDate with
    | none => exact ⟨hraw, hhits, hrawSeen, hhitsSeen⟩
    | some d =>
      dsimp only
      by_cases hd : d = ""
      · rw [if_pos hd]; exact ⟨hraw, hhits, hrawSeen, hhitsSeen⟩
      · rw [if_neg hd]
        match parse d with
        | none => exact ⟨hraw, hhits, hrawSeen, hhitsSeen⟩
        | some t =>
          dsimp only
          by_cases hseen : (src ++ "#" ++ it.link.getD "") ∈ st.seen
          · rw [if_pos hseen]; exact ⟨hraw, hhits, hrawSeen, hhitsSeen⟩
          · rw [if_neg hseen]
            have hid : (mkBase src it t).id = src ++ "#" ++ it.link.getD "" := rfl
            have hnotRaw : (mkBase src it t).id ∉ st.raw.map NewsOut.id := by
              intro hmem
              obtain ⟨r, hr, hrid⟩ := List.mem_map.mp hmem
              exact hseen (hid ▸ hrid ▸ hrawSeen r hr)
            have hnotHits : (mkBase src it t).id ∉ st.hits.map NewsOut.id := by
              intro hmem
              obtain ⟨r, hr, hrid⟩ := List.mem_map.mp hmem
              exact hseen (hid ▸ hrid ▸ hhitsSeen r hr)
            refine ⟨?_, ?_, ?_, ?_⟩
            · rw [List.map_append]
              simp only [List.map_cons, List.map_nil]
              exact List.Nodup.append hraw (List.nodup_singleton _)
                (by simpa using hnotRaw)
            · by_cases hm : matchKeywords (it.title.getD "")
                  (it.contentSnippet.getD "") keywords = true
              · rw [if_pos hm, List.map_append]
                simp only [List.map_cons, List.map_nil]
                exact List.Nodup.append hhits (List.nodup_singleton _)
                  (by simpa using hnotHits)
              · rw [if_neg hm]
                exact hhits
            · intro r hr
              rcases List.mem_append.mp hr with hr | hr
              · exact List.mem_cons_of_mem _ (hrawSeen r hr)
              · simp only [List.mem_singleton] at hr
                rw [hr, hid]
                exact List.mem_cons_self _ _
            · intro r hr
              by_cases hm : matchKeywords (it.title.getD "")
                  (it.contentSnippet.getD "") keywords = true
              · rw [if_pos hm] at hr
                rcases List.mem_append.mp hr with hr | hr
                · exact List.mem_cons_of_mem _ (hhitsSeen r hr)
                · simp only [List.mem_singleton] at hr
                  rw [hr, hid]
                  exact List.mem_cons_self _ _
              · rw [if_neg hm] at hr
                exact List.mem_cons_of_mem _ (hhitsSeen r hr)

end RouteV3

/-- C4: in the aggregation variant with the `seen` set, every record id is
unique within the returned collection, for every input — in particular for
every arrival order of the items, and on both the keyword-hits path and the
fallback path; two items with the same dedup key `source + "#" + link`
therefore never produce two records. -/
theorem c4_unique_ids (parse : String → Option Int) (keywords : List String)
    (allowFallback : Bool) (fallbackCount : Nat)
    (feeds : List (String × List RSSItem)) :
    ((RouteV3.loadNewsFromFeeds parse keywords allowFallback fallbackCount
      feeds).map RouteV3.NewsOut.id).Nodup := by
  have hinv : RouteV3.DedupInv (RouteV3.processFeeds parse keywords feeds) :=
    RouteV3.processFeedsV3_inv RouteV3.DedupInv parse keywords feeds
      ⟨List.nodup_nil, List.nodup_nil, by simp, by simp⟩
      (RouteV3.stepItem_dedupInv parse keywords)
  obtain ⟨hraw, hhits, -, -⟩ := hinv
  unfold RouteV3.loadNewsFromFeeds
  dsimp only
  have hpermHits : List.Perm
      ((RouteV3.sortByDateDesc (RouteV3.processFeeds parse keywords feeds).hits).map
        RouteV3.NewsOut.id)
      ((RouteV3.processFeeds parse keywords feeds).hits.map RouteV3.NewsOut.id) :=
    (List.perm_insertionSort _ _).map _
  have hpermRaw : List.Perm
      ((RouteV3.sortByDateDesc (RouteV3.processFeeds parse keywords feeds).raw).map
        RouteV3.NewsOut.id)
      ((RouteV3.processFeeds parse keywords feeds).raw.map RouteV3.NewsOut.id) :=
    (List.perm_insertionSort _ _).map _
  split
  · split
    · rw [List.map_take]
      exact List.Nodup.sublist (List.take_sublist _ _) (hpermRaw.nodup_iff.mpr hraw)
    · exact List.nodup_nil
  · exact hpermHits.nodup_iff.mpr hhits

namespace RouteV3

/-- Every emitted record keeps a nonempty link and a successfully parsed
timestamp: the repair-by-substitution the spec describes does not exist in
this code path. -/
def RepairInv (parse : String → Option Int) (st : Acc) : Prop :=
  (∀ r ∈ st.raw, r.link ≠ "" ∧ ∃ d, d ≠ "" ∧ parse d = some r.publishedAt) ∧
  (∀ r ∈ st.hits, r.link ≠ "" ∧ ∃ d, d ≠ "" ∧ parse d = some r.publishedAt)

theorem stepItem_repairInv (parse : String → Option Int)
    (keywords : List String) (src : String) (st : Acc) (it : RSSItem)
    (h : RepairInv parse st) : RepairInv parse (stepItem parse keywords src st it) := by
  obtain ⟨hraw, hhits⟩ := h
  unfold stepItem
  by_cases hlink : it.link.getD "" = ""
  · rw [if_pos hlink]; exact ⟨hraw, hhits⟩
  · rw [if_neg hlink]
    match it.pubDate with
    | none => exact ⟨hraw, hhits⟩
    | some d =>
      dsimp only
      by_cases hd : d = ""
      · rw [if_pos hd]; exact ⟨hraw, hhits⟩
      · rw [if_neg hd]
        match hp : parse d with
        | none => exact ⟨hraw, hhits⟩
        | some t =>
          dsimp only
          by_cases hseen : (src ++ "#" ++ it.link.getD "") ∈ st.seen
          · rw [if_pos hseen]; exact ⟨hraw, hhits⟩
          · rw [if_neg hseen]
            have hbase : (mkBase src it t).link ≠ "" ∧
                ∃ d', d' ≠ "" ∧ parse d' = some (mkBase src it t).publishedAt :=
              ⟨hlink, d, hd, hp⟩
            refine ⟨?_, ?_⟩
            · intro r hr
              rcases List.mem_append.mp hr with hr | hr
              · exact hraw r hr
              · simp only [List.mem_singleton] at hr
                rw [hr]; exact hbase
            · by_cases hm : matchKeywords (it.title.getD "")
                  (it.contentSnippet.getD "") keywords = true
              · rw [if_pos hm]
                intro r hr
                rcases List.mem_append.mp hr with hr | hr
                · exact hhits r hr
                · simp only [List.mem_singleton] at hr
                  rw [hr]; exact hbase
              · rw [if_neg hm]
                exact hhits

end RouteV3

/-- Disclosure for the retained earlier variants: in the `seen`-set route
of this snapshot a malformed item is skipped, so every record it does emit
has a nonempty link and a published-at that is the successful parse of
some nonempty raw date string.  The repairing behavior the spec describes
belongs to the final variant absent from the snapshot (see `ItemRepair`). -/
theorem routeV3_emitted_records_wellformed (parse : String → Option Int)
    (keywords : List String) (allowFallback : Bool) (fallbackCount : Nat)
    (feeds : List (String × List RSSItem)) (r : RouteV3.NewsOut)
    (hr : r ∈ RouteV3.loadNewsFromFeeds parse keywords allowFallback
      fallbackCount feeds) :
    r.link ≠ "" ∧ ∃ d, d ≠ "" ∧ parse d = some r.publishedAt := by
  have hinv : RouteV3.RepairInv parse (RouteV3.processFeeds parse keywords feeds) :=
    RouteV3.processFeedsV3_inv (RouteV3.RepairInv parse) parse keywords feeds
      ⟨by simp, by simp⟩ (RouteV3.stepItem_repairInv parse keywords)
  obtain ⟨hraw, hhits⟩ := hinv
  unfold RouteV3.loadNewsFromFeeds at hr
  dsimp only at hr
  rcases hsplit : (RouteV3.sortByDateDesc
      (RouteV3.processFeeds parse keywords feeds).hits).isEmpty with _ | _
  · rw [hsplit] at hr
    simp only [Bool.false_eq_true, if_false] at hr
    exact hhits r ((List.perm_insertionSort _ _).mem_iff.mp hr)
  · rw [hsplit] at hr
    simp only [if_true] at hr
    rcases allowFallback with _ | _
    · simp at hr
    · simp only [if_true] at hr
      have hr' : r ∈ RouteV3.sortByDateDesc
          (RouteV3.processFeeds parse keywords feeds).raw :=
        List.take_subset _ _ hr
      exact hraw r ((List.perm_insertionSort _ _).mem_iff.mp hr')

/-- A concrete stand-in for the excluded `new Date` parser: it parses
exactly one date string. -/
def parse0 : String → Option Int :=
  fun s => if s = "Mon, 01 Jan 2024 07:00:00 GMT" then some 1704092400000 else none

/-- Disclosure for the retained earlier variants, at a concrete input: an
item with a missing link (even a keyword-matching one with a valid date)
and an item with an unparseable date are both dropped by the `seen`-set
route of this snapshot — its collection comes back empty rather than
carrying repaired records. -/
theorem routeV3_drops_malformed_items :
    (⟨some "Judul kemenhub", none, some "Mon, 01 Jan 2024 07:00:00 GMT",
      some "isi"⟩ : RSSItem).link = none ∧
    parse0 "tanggal-rusak" = none ∧
    RouteV3.loadNewsFromFeeds parse0 ["kemenhub"] true 15
      [("antaranews.com",
        [⟨some "Judul kemenhub", none, some "Mon, 01 Jan 2024 07:00:00 GMT",
          some "isi"⟩,
         ⟨some "Judul kemenhub", some "https://x/2", some "tanggal-rusak",
          some "isi"⟩])] = [] := by
  refine ⟨rfl, by decide, by decide⟩

/-- Concrete instance of `routeV3_emitted_records_wellformed`: a
well-formed record passes through with its nonempty link and parsed
timestamp. -/
theorem routeV3_emitted_records_wellformed_witness :
    (RouteV3.mkBase "antaranews.com"
        ⟨some "Judul kemenhub", some "https://x/3",
          some "Mon, 01 Jan 2024 07:00:00 GMT", some "isi"⟩
        1704092400000).link ≠ "" ∧
    ∃ d, d ≠ "" ∧ parse0 d = some (RouteV3.mkBase "antaranews.com"
        ⟨some "Judul kemenhub", some "https://x/3",
          some "Mon, 01 Jan 2024 07:00:00 GMT", some "isi"⟩
        1704092400000).publishedAt :=
  routeV3_emitted_records_wellformed parse0 ["kemenhub"] false 15
    [("antaranews.com",
      [⟨some "Judul kemenhub", some "https://x/3",
        some "Mon, 01 Jan 2024 07:00:00 GMT", some "isi"⟩])]
    _ (by decide)

theorem strIncl_needle_nil (hay needle : String) (h : needle.toList = []) :
    strIncl hay needle = true := by
  unfold strIncl
  rw [h]
  match hay.toList with
  | [] => rfl
  | c :: r => rfl

theorem strIncl_nil_hay (needle : String) (h : strIncl "" needle = true) :
    needle.toList = [] := by
  unfold strIncl at h
  match hn : needle.toList with
  | [] => rfl
  | c :: r =>
    rw [hn] at h
    exact absurd h (by simp [strIncl.go])

/-- Replacing an empty title by the `"(tanpa judul)"` placeholder preserves
keyword matches: an empty title can only have matched via an empty keyword,
which matches anything. -/
theorem matchKeywords_title_subst (a b : String) (keywords : List String)
    (h : matchKeywords a b keywords = true) :
    matchKeywords (if a = "" then "(tanpa judul)" else a) b keywords = true := by
  by_cases ha : a = ""
  · rw [if_pos ha]
    rw [ha] at h
    unfold matchKeywords at h ⊢
    simp only [List.any_eq_true] at h ⊢
    obtain ⟨k, hk, hpred⟩ := h
    refine ⟨k, hk, ?_⟩
    simp only [Bool.or_eq_true] at hpred ⊢
    rcases hpred with hpred | hpred
    · have hnil : (lowerStr k).toList = [] := by
        refine strIncl_nil_hay (lowerStr k) ?_
        have : lowerStr "" = "" := rfl
        rw [this] at hpred
        exact hpred
      exact Or.inl (strIncl_needle_nil _ _ hnil)
    · exact Or.inr hpred
  · rw [if_neg ha]
    exact h

namespace RouteV2

/-- Any property preserved by `stepItem` and true of the empty state holds
of the fully folded state (fallback-variant counterpart). -/
theorem processFeedsV2_inv (P : Acc → Prop)
    (parse : String → Option Int) (keywords : List String)
    (feeds : List (String × List RSSItem))
    (h0 : P ⟨[], []⟩)
    (hstep : ∀ src st it, P st → P (stepItem parse keywords src st it)) :
    P (processFeeds parse keywords feeds) := by
  unfold processFeeds
  refine foldl_preserves P _ ?_ feeds _ h0
  intro st f hst
  exact foldl_preserves P _ (fun a b ha => hstep f.1 a b ha) f.2 st hst

/-- Every record in `hits` matches the keyword list on its own stored
title/summary. -/
def HitsMatchInv (keywords : List String) (st : Acc) : Prop :=
  ∀ r ∈ st.hits, matchKeywords r.title r.summary keywords = true

theorem stepItem_hitsMatchInv (parse : String → Option Int)
    (keywords : List String) (src : String) (st : Acc) (it : RSSItem)
    (h : HitsMatchInv keywords st) :
    HitsMatchInv keywords (stepItem parse keywords src st it) := by
  unfold stepItem
  by_cases hlink : it.link.getD "" = ""
  · rw [if_pos hlink]; exact h
  · rw [if_neg hlink]
    match it.pubDate with
    | none => exact h
    | some d =>
      dsimp only
      by_cases hd : d = ""
      · rw [if_pos hd]; exact h
      · rw [if_neg hd]
        match parse d with
        | none => exact h
        | some t =>
          dsimp only
          by_cases hm : matchKeywords (it.title.getD "")
              (it.contentSnippet.getD "") keywords = true
          · rw [if_pos hm]
            intro r hr
            rcases List.mem_append.mp hr with hr | hr
            · exact h r hr
            · simp only [List.mem_singleton] at hr
              rw [hr]
              exact matchKeywords_title_subst _ _ keywords hm
          · rw [if_neg hm]
            exact h

end RouteV2

/-- C3 counterexample: a single item mentioning no ministry keyword anywhere
is NOT excluded — with zero keyword hits the fallback path returns it
inside the news collection (marked `fallback_no_keyword_hits`). -/
theorem c3_counterexample :
    matchKeywords "Berita umum" "ringkasan" ["kemenhub"] = false ∧
    RouteV2.loadNewsFromFeeds parse0 ["kemenhub"] 15
      [("antaranews.com",
        [⟨some "Berita umum", some "https://x/2",
          some "Mon, 01 Jan 2024 07:00:00 GMT", some "ringkasan"⟩])] =
      [{ id := "antaranews.com#https://x/2", title := "Berita umum",
         source := "antaranews.com", publishedAt := 1704092400000,
         link := "https://x/2", summary := "ringkasan",
         entities := ["Kemenhub"], note := some "fallback_no_keyword_hits" }] := by
  refine ⟨by decide, by decide⟩

/-- C3 (amended): whenever at least one item passes the relevance gate,
the news collection is exactly the keyword hits, so every returned record
matches the keyword list on its stored title/summary and an item mentioning
no keyword contributes no record; no QuoteRecord is produced in any case
(this variant assembles `quotes` empty).  Only when no item at all matches
does the fallback path return the most recent raw items. -/
theorem c3_relevance_gate (parse : String → Option Int)
    (keywords : List String) (fallbackCount : Nat)
    (feeds : List (String × List RSSItem))
    (hne : (RouteV2.processFeeds parse keywords feeds).hits ≠ []) :
    (RouteV2.getItems parse keywords fallbackCount feeds).quotes = [] ∧
    ∀ r ∈ RouteV2.loadNewsFromFeeds parse keywords fallbackCount feeds,
      matchKeywords r.title r.summary keywords = true := by
  have hinv : RouteV2.HitsMatchInv keywords
      (RouteV2.processFeeds parse keywords feeds) :=
    RouteV2.processFeedsV2_inv (RouteV2.HitsMatchInv keywords) parse keywords
      feeds (by intro r hr; simp at hr)
      (RouteV2.stepItem_hitsMatchInv parse keywords)
  refine ⟨rfl, ?_⟩
  intro r hr
  unfold RouteV2.loadNewsFromFeeds at hr
  dsimp only at hr
  have hperm := List.perm_insertionSort
    (fun a b : RouteV2.NewsOut => b.publishedAt ≤ a.publishedAt)
    (RouteV2.processFeeds parse keywords feeds).hits
  have hsorted : (RouteV2.sortByDateDesc
      (RouteV2.processFeeds parse keywords feeds).hits).isEmpty = false := by
    cases hs : RouteV2.sortByDateDesc
        (RouteV2.processFeeds parse keywords feeds).hits with
    | nil =>
      exfalso
      apply hne
      unfold RouteV2.sortByDateDesc at hs
      rw [hs] at hperm
      exact hperm.symm.eq_nil
    | cons a l => rfl
  rw [hsorted] at hr
  simp only [Bool.false_eq_true, if_false] at hr
  exact hinv r (hperm.mem_iff.mp hr)

/-- C3 witness: with one matching and one non-matching item, the gate keeps
only keyword-matching records — witnessed on the record the matching item
produces. -/
theorem c3_relevance_gate_witness :
    matchKeywords
      (RouteV2.mkBase "antaranews.com"
        ⟨some "Kemenhub resmikan terminal", some "https://x/1",
          some "Mon, 01 Jan 2024 07:00:00 GMT", some "isi"⟩
        1704092400000).title
      (RouteV2.mkBase "antaranews.com"
        ⟨some "Kemenhub resmikan terminal", some "https://x/1",
          some "Mon, 01 Jan 2024 07:00:00 GMT", some "isi"⟩
        1704092400000).summary ["kemenhub"] = true :=
  (c3_relevance_gate parse0 ["kemenhub"] 15
    [("antaranews.com",
      [⟨some "Kemenhub resmikan terminal", some "https://x/1",
        some "Mon, 01 Jan 2024 07:00:00 GMT", some "isi"⟩,
       ⟨some "Berita umum", some "https://x/2",
        some "Mon, 01 Jan 2024 07:00:00 GMT", some "ringkasan"⟩])]
    (by decide)).2 _ (by decide)

/-- C1: (spec-modelled, the event-inference stage is absent from the
repository's route variants) every inferred event record lands in the
aggregation's events collection, and its date is the parent news record's
published-at shifted forward exactly one calendar day when the combined
title+summary text contains a future-tense marker as a whole word, and is
the published-at unchanged otherwise. -/
theorem c1_event_date_shift (news : List RouteV3.NewsOut)
    (n : RouteV3.NewsOut) (e : EventInference.EventRecord)
    (hn : n ∈ news) (he : EventInference.inferEvent n = some e) :
    e ∈ EventInference.inferEvents news ∧
    (EventInference.hasFutureMarker (lowerStr (EventInference.combinedText n)) = true →
      e.date = n.publishedAt + EventInference.oneDayMs) ∧
    (EventInference.hasFutureMarker (lowerStr (EventInference.combinedText n)) = false →
      e.date = n.publishedAt) := by
  refine ⟨List.mem_filterMap.mpr ⟨n, hn, he⟩, ?_, ?_⟩ <;>
    · intro hm
      unfold EventInference.inferEvent at he
      by_cases hl : EventInference.looksLikeEvent n.title n.summary = true
      · rw [if_pos hl] at he
        simp only [Option.some.injEq] at he
        rw [← he]
        simp [hm]
      · rw [if_neg hl] at he
        exact absurd he (by simp)

/-- C1 witness: a record whose text contains the whole-word marker `akan`
shifts by exactly one day (86 400 000 ms), and a marker-free event-like
record keeps its published-at. -/
theorem c1_event_date_shift_witness :
    ((⟨"evt#antaranews.com#https://x/9", "Menhub akan resmikan terminal baru",
        1704178800000, "Makassar", true, "antaranews.com", [],
        "peresmian dijadwalkan di Makassar", "https://x/9"⟩ :
          EventInference.EventRecord) ∈
      EventInference.inferEvents
        [⟨"antaranews.com#https://x/9", "Menhub akan resmikan terminal baru",
          "antaranews.com", 1704092400000, "https://x/9",
          "peresmian dijadwalkan di Makassar", []⟩] ∧
     (EventInference.hasFutureMarker (lowerStr (EventInference.combinedText
        ⟨"antaranews.com#https://x/9", "Menhub akan resmikan terminal baru",
          "antaranews.com", 1704092400000, "https://x/9",
          "peresmian dijadwalkan di Makassar", []⟩)) = true →
       (1704178800000 : Int) = 1704092400000 + EventInference.oneDayMs) ∧
     (EventInference.hasFutureMarker (lowerStr (EventInference.combinedText
        ⟨"antaranews.com#https://x/9", "Menhub akan resmikan terminal baru",
          "antaranews.com", 1704092400000, "https://x/9",
          "peresmian dijadwalkan di Makassar", []⟩)) = false →
       (1704178800000 : Int) = 1704092400000)) :=
  c1_event_date_shift _ _ _ (by decide) (by decide)
